import Mathlib

/-!
Verification of the character-registry core of `src/games/gameable.py`:
the tiered row matcher (`_get_matching_df_rows_matcher`), the resolver
(`find_character_info`) and the override ingestor
(`__apply_character_overrides`).

The pandas DataFrame is embedded as a `Table`: a list of column headers and
a list of rows, each row a list of cells.  A cell is `Option String`, with
`none` standing for a pandas null (NaN).  Boolean Series (row masks) are
`List Bool`, aligned positionally with the rows.  Python string operations
are translated as list-of-char computations so everything reduces in the
kernel.
-/

namespace Mantella

/-- A cell of the character table; `none` models a pandas null (NaN). -/
abbrev Cell := Option String

/-- Python `str.lower()` (ASCII case folding, as `Char.toLower` gives). -/
def pyLower (s : String) : String := String.mk (s.toList.map Char.toLower)

/-- Python `s.lstrip('0')`: drop every leading `'0'` character. -/
def lstrip0 (s : String) : String := String.mk (s.toList.dropWhile (fun c => c == '0'))

/-- Python `s[-n:]` for `n > 0`: the last `n` characters (the whole string
when it is shorter than `n`). -/
def lastN (s : String) (n : Nat) : String := String.mk (s.toList.drop (s.toList.length - n))

/-- Python `str(x)` on a cell: a null prints as the literal string `"nan"`. -/
def cellStr : Cell → String
  | none => "nan"
  | some s => s

/-- `remove_leading_zeros` from the source: a null becomes `''`, anything
else is `str`-ed and `lstrip('0')`-ed. -/
def remove_leading_zeros : Cell → String
  | none => ""
  | some s => lstrip0 s

/-- Does `sep` occur at the front of `l`? (`str.startswith` on char lists.) -/
def startsWithL : List Char → List Char → Bool
  | [], _ => true
  | _ :: _, [] => false
  | a :: asx, b :: bs => a == b && startsWithL asx bs

/-- Python `str.split(sep)` for a non-empty `sep`, on char lists; the fuel
argument bounds recursion by the length of the list being split. -/
def pySplitFuel (sep : List Char) : Nat → List Char → List (List Char)
  | _, [] => [[]]
  | 0, l => [l]
  | fuel + 1, c :: rest =>
      if startsWithL sep (c :: rest) then
        [] :: pySplitFuel sep fuel (rest.drop (sep.length - 1))
      else
        match pySplitFuel sep fuel rest with
        | [] => [[c]]
        | g :: gs => (c :: g) :: gs

/-- Python `s.split(sep)` for a non-empty separator. -/
def pySplit (sep s : String) : List String :=
  (pySplitFuel sep.toList s.toList.length s.toList).map String.mk

/-- The first index at which `p` holds in `l` (column lookup by name). -/
def findIdxO (p : α → Bool) : List α → Option Nat
  | [] => none
  | a :: asx => if p a then some 0 else (findIdxO p asx).map (· + 1)

/-- The registry table: a fixed header schema and the rows, each row a list
of cells aligned with the headers. -/
structure Table where
  headers : List String
  rows : List (List Cell)
deriving Repr, DecidableEq

/-- `row[col]`: the cell of `row` in the column named `col` (the first
header with that name); `none` when the column does not exist. -/
def getCol (headers : List String) (row : List Cell) (col : String) : Cell :=
  match findIdxO (fun h => h == col) headers with
  | some i => row.getD i none
  | none => none

/-- `full_id_len = 6` from the source. -/
def full_id_len : Nat := 6

/-- `base_id[-full_id_len:].lstrip('0')`. -/
def full_id_search (base_id : String) : String := lstrip0 (lastN base_id full_id_len)

/-- One row's contribution to the `id_match` mask:
`remove_leading_zeros(row['base_id']).lower() == full_id_search.lower()`. -/
def idRowPred (headers : List String) (row : List Cell) (base_id : String) : Bool :=
  pyLower (remove_leading_zeros (getCol headers row "base_id")) == pyLower (full_id_search base_id)

/-- One row's contribution to the `name_match` mask:
`str(row['name']).lower() == character_name.lower()`. -/
def nameRowPred (headers : List String) (row : List Cell) (character_name : String) : Bool :=
  pyLower (cellStr (getCol headers row "name")) == pyLower character_name

/-- One row's contribution to the `race_match` mask:
`str(row['race']).lower() == race.lower()`. -/
def raceRowPred (headers : List String) (row : List Cell) (race : String) : Bool :=
  pyLower (cellStr (getCol headers row "race")) == pyLower race

/-- The `id_match` boolean Series. -/
def id_match (t : Table) (base_id : String) : List Bool :=
  t.rows.map (fun r => idRowPred t.headers r base_id)

/-- The `name_match` boolean Series. -/
def name_match (t : Table) (character_name : String) : List Bool :=
  t.rows.map (fun r => nameRowPred t.headers r character_name)

/-- The `race_match` boolean Series. -/
def race_match (t : Table) (race : String) : List Bool :=
  t.rows.map (fun r => raceRowPred t.headers r race)

/-- The per-row partial-id value for window `n`, translating
`remove_leading_zeros(str(x)[-n:]) if pd.notna(x) and len(str(x)) >= n else
remove_leading_zeros(str(x))`.  Note the argument of `remove_leading_zeros`
is always a `str` here, so a null cell has gone through `str()` and become
the literal string `"nan"` (on which `pd.isna` is false). -/
def partialRowVal (cell : Cell) (n : Nat) : String :=
  match cell with
  | none => lstrip0 "nan"
  | some s => if n ≤ s.toList.length then lstrip0 (lastN s n) else lstrip0 s

/-- One row's contribution to the partial-id mask at window `n`. -/
def partialRowPred (headers : List String) (row : List Cell) (base_id : String) (n : Nat) : Bool :=
  pyLower (partialRowVal (getCol headers row "base_id") n) == pyLower (lstrip0 (lastN base_id n))

/-- The partial-id boolean Series at a fixed window `n`. -/
def partial_mask (t : Table) (base_id : String) (n : Nat) : List Bool :=
  t.rows.map (fun r => partialRowPred t.headers r base_id n)

/-- `mask.any()`. -/
def anyTrue (m : List Bool) : Bool := m.any id

/-- The source's partial-id loop: start from an all-`False` Series and, for
`n` in `[5, 4, 3]`, break as soon as the current mask has any true entry,
otherwise recompute the mask at the next window. -/
def partial_id_match (t : Table) (base_id : String) : List Bool :=
  [5, 4, 3].foldl
    (fun acc n => if anyTrue acc then acc else partial_mask t base_id n)
    (t.rows.map (fun _ => false))

/-- `a & b` on boolean Series. -/
def andMask (a b : List Bool) : List Bool := List.zipWith (fun x y => x && y) a b

/-- The `ordered_matchers` dict of the source, as a list in insertion
order: name∧id∧race, name∧id, name∧partial∧race, name∧partial, name∧race,
name, id. -/
def ordered_matchers (t : Table) (base_id character_name race : String) : List (List Bool) :=
  let idm := id_match t base_id
  let nm := name_match t character_name
  let rm := race_match t race
  let pm := partial_id_match t base_id
  [ andMask (andMask nm idm) rm,
    andMask nm idm,
    andMask (andMask nm pm) rm,
    andMask nm pm,
    andMask nm rm,
    nm,
    idm ]

/-- The `i`-th tier's mask (0-based; the claims number tiers 1..7). -/
def tierMask (t : Table) (base_id character_name race : String) (i : Nat) : List Bool :=
  (ordered_matchers t base_id character_name race).getD i []

/-- `df.loc[mask].shape[0]`: how many rows a mask selects. -/
def countTrue (m : List Bool) : Nat := m.count true

/-- `_get_matching_df_rows_matcher`: walk the tiers in order and return the
first mask selecting exactly one row, `None` when no tier does. -/
def find_match (t : Table) (base_id character_name race : String) : Option (List Bool) :=
  (ordered_matchers t base_id character_name race).findSome?
    (fun m => if countTrue m = 1 then some m else none)

/-- `df.loc[mask]`: the rows a mask selects, in order. -/
def selectRows (rows : List (List Cell)) (mask : List Bool) : List (List Cell) :=
  (List.zip mask rows).filterMap (fun p => if p.1 then some p.2 else none)

/-- A resolved character record: the dict `result.to_dict('records')[0]`
(or the dict the generic-NPC collaborator returns), as an ordered list of
column/value pairs. -/
abbrev Record := List (String × Cell)

/-- Python dict read `rec[k]` (the record always carries the schema's keys
at the uses below, so a missing key is conflated with a null value). -/
def getField (rec : Record) (k : String) : Cell :=
  match rec.find? (fun p => p.1 == k) with
  | some p => p.2
  | none => none

/-- Python dict write `rec[k] = v` on a record already carrying key `k`. -/
def setField (rec : Record) (k : String) (v : Cell) : Record :=
  rec.map (fun p => if p.1 == k then (p.1, v) else p)

/-- The source's unset test on a stored voice model:
`(x is None) or pd.isnull(x) or (x == '')`. -/
def voiceEmpty (v : Cell) : Bool := v == none || v == some ""

/-- `race.split('<')[1].split('Race ')[0]`; `none` models the `IndexError`
raised when the descriptor contains no `'<'`.  (`split('Race ')[0]` always
exists: a split is never empty.) -/
def parseRaceToken (race : String) : Option String :=
  match (pySplit "<" race).get? 1 with
  | none => none
  | some t2 => some ((pySplit "Race " t2).getD 0 "")

/-- The abstract game-specific collaborators of the `gameable` subclass:
`load_unnamed_npc` and `find_best_voice_model`. -/
structure Collaborators where
  load_unnamed_npc : String → String → Int → String → Record
  find_best_voice_model : String → Int → String → String

/-- `find_character_info`.  The table is threaded through explicitly so the
read-only behaviour of the Python code (the backfill is written into the
dict copy produced by `to_dict`, not into the DataFrame) is visible in the
type: the third component is the table the caller holds afterwards.
`none` is the `IndexError` of the race-descriptor parse. -/
def find_character_info (c : Collaborators) (t : Table)
    (base_id character_name race : String) (gender : Int) (ingame_voice_model : String) :
    Option (Record × Bool × Table) :=
  match parseRaceToken race with
  | none => none
  | some character_race =>
    match find_match t base_id character_name character_race with
    | none =>
        some (c.load_unnamed_npc character_name character_race gender ingame_voice_model, true, t)
    | some mask =>
        let row := (selectRows t.rows mask).headD []
        let character_info := t.headers.zip row
        let character_info :=
          if voiceEmpty (getField character_info "voice_model") then
            setField character_info "voice_model"
              (some (c.find_best_voice_model race gender ingame_voice_model))
          else character_info
        some (character_info, false, t)

/-- One candidate override record of a JSON override file: a partial
string-to-string mapping using the registry's column names
(`content: dict[str, str]`). -/
abbrev Candidate := List (String × String)

/-- Python `content.get(k)`: `none` when the key is absent. -/
def cget (cand : Candidate) (k : String) : Option String :=
  match cand.find? (fun p => p.1 == k) with
  | some p => some p.2
  | none => none

/-- The source's overwrite test `if value and value != ""`: the candidate
holds a non-empty (hence non-null) value for column `h`. -/
def suppliesNonEmpty (cand : Candidate) (h : String) : Bool :=
  match cget cand h with
  | some v => !(v == "")
  | none => false

/-- Write `v` into the cells of `row` lying in the column named `h`. -/
def setRowField (headers : List String) (row : List Cell) (h : String) (v : Cell) : List Cell :=
  (headers.zip row).map (fun p => if p.1 == h then v else p.2)

/-- `df.loc[mask, h] = v`: write `v` into column `h` of every row the mask
selects. -/
def setColumn (t : Table) (mask : List Bool) (h : String) (v : Cell) : Table :=
  { t with rows := List.zipWith (fun b row => if b then setRowField t.headers row h v else row) mask t.rows }

/-- The per-candidate body of `__apply_character_overrides` (JSON branch):
look the candidate up with the matcher built from its `name`, `base_id` and
`race` (empty string when absent); on no unique match append a new row
filled from the candidate (empty string default) in header order, otherwise
overwrite each column for which the candidate holds a non-empty value.
`chs` is the `character_df_column_headers` parameter.  `updateStep` is
the body of the source's update loop `for entry in character_df_column_headers`:
`value = content.get(entry, None); if value and value != "": df.loc[matcher, entry] = value`. -/
def updateStep (cand : Candidate) (mask : List Bool) (acc : Table) (entry : String) : Table :=
  match cget cand entry with
  | some v => if v ≠ "" then setColumn acc mask entry (some v) else acc
  | none => acc

/-- The per-candidate body of the override loop (see `updateStep`). -/
def applyCandidate (chs : List String) (t : Table) (cand : Candidate) : Table :=
  let name := (cget cand "name").getD ""
  let base_id := (cget cand "base_id").getD ""
  let race := (cget cand "race").getD ""
  match find_match t base_id name race with
  | none =>
      { t with rows := t.rows ++ [chs.map (fun entry => some ((cget cand entry).getD ""))] }
  | some mask =>
      chs.foldl (updateStep cand mask) t

/-- An override file as the ingestor sees it after the filesystem and the
JSON decoder: either the decoded list of candidate records (a lone object
already wrapped into a one-element list), or the exception text the
per-file `try` catches. -/
abbrev OverrideFile := Except String (List Candidate)

/-- The per-file body of `__apply_character_overrides`: a file that raises
is skipped (only a warning is logged), a decoded file is applied candidate
by candidate. -/
def applyFile (chs : List String) (t : Table) (f : OverrideFile) : Table :=
  match f with
  | .error _ => t
  | .ok cands => cands.foldl (applyCandidate chs) t

/-- `__apply_character_overrides` over a whole directory.  `none` models a
missing overrides folder: the source creates it empty, so the listing is
empty and the table is left unchanged. -/
def apply_character_overrides (dir : Option (List OverrideFile)) (chs : List String) (t : Table) : Table :=
  match dir with
  | none => t
  | some files => files.foldl (applyFile chs) t

/-! ### Concrete fixtures used by the witness theorems -/

/-- A one-row registry whose row's own identity query matches at tier 1. -/
def tableC5 : Table :=
  ⟨["base_id", "name", "race", "voice_model"],
   [[some "000A2F3C", some "Lydia", some "NordRace", some ""]]⟩

/-- A one-row registry whose row's `base_id` has significant characters
before the last six: querying the row's own `(name, base_id, race)` does
return the row, but tier 1 (name, ID, race) selects zero rows — the hit is
at the partial-id tier — refuting claim C5 as stated. -/
def tableC5x : Table :=
  ⟨["base_id", "name", "race"], [[some "FF00012A", some "Aela", some "Nord"]]⟩

/-- A concrete pair of game-specific collaborators for the witnesses. -/
def collabDemo : Collaborators :=
  ⟨fun n r _ _ => [("name", some n), ("race", some r), ("voice_model", some "GenericVoice")],
   fun _ _ _ => "BestVoice"⟩

/-- A registry with rows that match none of the witness queries below. -/
def tableNoMatch : Table :=
  ⟨["base_id", "name", "race", "voice_model"],
   [[some "7C1", some "Hulda", some "NordRace", some "FemaleNord"]]⟩

/-- A registry whose single row matches the witness query at tier 1 and
stores an empty `voice_model`. -/
def tableEmptyVoice : Table :=
  ⟨["base_id", "name", "race", "voice_model"],
   [[some "000A2F3C", some "Lydia", some "Nord", some ""]]⟩

/-- Two indistinguishable rows: any candidate naming them stays ambiguous
at every tier, so the insert path re-triggers on a second pass. -/
def tableDup : Table :=
  ⟨["base_id", "name", "race"],
   [[some "12A", some "A", some "R"], [some "12A", some "A", some "R"]]⟩

/-- The override record used against `tableDup`. -/
def candDup : Candidate := [("base_id", "12A"), ("name", "A"), ("race", "R")]

/-- An override record supplying only a name and a voice model, as in the
spec's end-to-end scenario 3. -/
def candUpdate : Candidate := [("name", "Lydia"), ("voice_model", "NewVoice")]

/-! ### Generic list lemmas -/

theorem getD_map_lt (f : α → β) (l : List α) (i : Nat) (d : β) (da : α) (h : i < l.length) :
    (l.map f).getD i d = f (l.getD i da) := by
  induction l generalizing i with
  | nil => simp at h
  | cons a asx ih =>
    cases i with
    | zero => simp [List.getD]
    | succ n =>
      simp only [List.map, List.getD_cons_succ]
      exact ih n (by simpa using h)

theorem getD_zipWith_lt (f : α → β → γ) (asx : List α) (bs : List β) (i : Nat)
    (d : γ) (da : α) (db : β) (ha : i < asx.length) (hb : i < bs.length) :
    (List.zipWith f asx bs).getD i d = f (asx.getD i da) (bs.getD i db) := by
  induction asx generalizing bs i with
  | nil => simp at ha
  | cons a asx ih =>
    cases bs with
    | nil => simp at hb
    | cons b bs =>
      cases i with
      | zero => simp [List.getD]
      | succ n =>
        simp only [List.zipWith, List.getD_cons_succ]
        exact ih bs n (by simpa using ha) (by simpa using hb)

theorem getD_mem_of_lt (l : List α) (i : Nat) (d : α) (h : i < l.length) : l.getD i d ∈ l := by
  induction l generalizing i with
  | nil => simp at h
  | cons a asx ih =>
    cases i with
    | zero => simp [List.getD]
    | succ n =>
      simp only [List.getD_cons_succ]
      exact List.mem_cons_of_mem _ (ih n (by simpa using h))

theorem findSome?_cons_eq (f : α → Option β) (a : α) (l : List α) :
    (a :: l).findSome? f = match f a with | some b => some b | none => l.findSome? f := rfl

theorem findSome?_guard_eq_none (p : α → Prop) [DecidablePred p] (l : List α) (d : α) :
    (l.findSome? (fun x => if p x then some x else none) = none) ↔
      ∀ i, i < l.length → ¬ p (l.getD i d) := by
  induction l with
  | nil => simp
  | cons a asx ih =>
    by_cases hpa : p a
    · rw [findSome?_cons_eq]
      simp only [if_pos hpa]
      constructor
      · intro h; exact absurd h (by simp)
      · intro h; exact absurd hpa (by simpa using h 0 (by simp))
    · rw [findSome?_cons_eq]
      simp only [if_neg hpa]
      show (asx.findSome? _ = none) ↔ _
      rw [ih]
      constructor
      · intro h i hi
        cases i with
        | zero => simpa using hpa
        | succ n => simpa using h n (by simpa using hi)
      · intro h i hi
        simpa using h (i + 1) (by simpa using hi)

theorem findSome?_guard_eq_some (p : α → Prop) [DecidablePred p] (l : List α) (d m : α) :
    (l.findSome? (fun x => if p x then some x else none) = some m) ↔
      ∃ i, i < l.length ∧ l.getD i d = m ∧ p m ∧ ∀ j, j < i → ¬ p (l.getD j d) := by
  induction l with
  | nil => simp
  | cons a asx ih =>
    by_cases hpa : p a
    · rw [findSome?_cons_eq]
      simp only [if_pos hpa]
      show (some a = some m) ↔ _
      constructor
      · intro h
        injection h with h
        subst h
        exact ⟨0, by simp, by simp, hpa, fun j hj => absurd hj (Nat.not_lt_zero j)⟩
      · rintro ⟨i, hi, hval, hpm, hmin⟩
        cases i with
        | zero => simp at hval; subst hval; rfl
        | succ n => exact absurd hpa (by simpa using hmin 0 (Nat.succ_pos n))
    · rw [findSome?_cons_eq]
      simp only [if_neg hpa]
      show (asx.findSome? _ = some m) ↔ _
      rw [ih]
      constructor
      · rintro ⟨i, hi, hv, hpm, hmin⟩
        refine ⟨i + 1, by simpa using hi, by simpa using hv, hpm, ?_⟩
        intro j hj
        cases j with
        | zero => simpa using hpa
        | succ k => simpa using hmin k (by omega)
      · rintro ⟨i, hi, hv, hpm, hmin⟩
        cases i with
        | zero => simp at hv; subst hv; exact absurd hpm hpa
        | succ n =>
          refine ⟨n, by simpa using hi, by simpa using hv, hpm, ?_⟩
          intro j hj
          simpa using hmin (j + 1) (by omega)

theorem anyTrue_false_iff (m : List Bool) : anyTrue m = false ↔ ∀ x ∈ m, x = false := by
  simp [anyTrue, List.any_eq_false]

theorem countTrue_eq_zero_of_anyTrue_false (m : List Bool) (h : anyTrue m = false) :
    countTrue m = 0 := by
  rw [anyTrue_false_iff] at h
  simp [countTrue, List.count_eq_zero]
  intro hmem
  exact absurd (h true hmem) (by simp)

theorem anyTrue_andMask_left (a : List Bool) (h : anyTrue a = false) (b : List Bool) :
    anyTrue (andMask a b) = false := by
  rw [anyTrue_false_iff] at h ⊢
  intro x hx
  induction a generalizing b with
  | nil => simp [andMask] at hx
  | cons c cs ih =>
    cases b with
    | nil => simp [andMask] at hx
    | cons e es =>
      simp [andMask] at hx
      rcases hx with hx | hx
      · have : c = false := h c (by simp)
        subst this
        simpa using hx
      · exact ih (fun y hy => h y (List.mem_cons_of_mem _ hy)) es hx

theorem countTrue_append_singleton (m : List Bool) (b : Bool) :
    countTrue (m ++ [b]) = countTrue m + (if b then 1 else 0) := by
  cases b <;> simp [countTrue, List.count_append]

/-! ### Shape of the matcher's masks -/

theorem partial_id_match_eq (t : Table) (b : String) :
    partial_id_match t b =
      if anyTrue (partial_mask t b 5) then partial_mask t b 5
      else if anyTrue (partial_mask t b 4) then partial_mask t b 4
      else partial_mask t b 3 := by
  have h0 : anyTrue (t.rows.map fun _ => false) = false := by
    rw [anyTrue_false_iff]
    intro x hx
    simp at hx
    exact hx.2
  unfold partial_id_match
  simp only [List.foldl_cons, List.foldl_nil, h0, if_false, Bool.false_eq_true]
  by_cases h5 : anyTrue (partial_mask t b 5) <;>
    by_cases h4 : anyTrue (partial_mask t b 4) <;>
      simp [h5, h4]

theorem length_partial_id_match (t : Table) (b : String) :
    (partial_id_match t b).length = t.rows.length := by
  rw [partial_id_match_eq]
  split_ifs <;> simp [partial_mask]

theorem mem_ordered_matchers_length (t : Table) (b n r : String) (m : List Bool)
    (hm : m ∈ ordered_matchers t b n r) : m.length = t.rows.length := by
  have hpl := length_partial_id_match t b
  simp only [ordered_matchers, List.mem_cons, List.not_mem_nil, or_false] at hm
  rcases hm with h | h | h | h | h | h | h <;> subst h <;>
    simp [andMask, List.length_zipWith, id_match, name_match, race_match, hpl]

theorem ordered_matchers_length (t : Table) (b n r : String) :
    (ordered_matchers t b n r).length = 7 := by
  simp [ordered_matchers]

theorem find_match_mask_length (t : Table) (b n r : String) (m : List Bool)
    (h : find_match t b n r = some m) : m.length = t.rows.length := by
  unfold find_match at h
  rw [findSome?_guard_eq_some (fun x => countTrue x = 1) _ []] at h
  obtain ⟨i, hi, hv, -, -⟩ := h
  exact hv ▸ mem_ordered_matchers_length t b n r _ (getD_mem_of_lt _ i [] hi)

theorem countTrue_cons (b : Bool) (m : List Bool) :
    countTrue (b :: m) = (if b then 1 else 0) + countTrue m := by
  cases b
  · simp [countTrue, List.count_cons]
  · simp [countTrue, List.count_cons]
    omega

theorem countTrue_map_zero (l : List α) (p : α → Bool) (d : α)
    (h : ∀ j, j < l.length → p (l.getD j d) = false) : countTrue (l.map p) = 0 := by
  induction l with
  | nil => rfl
  | cons a asx ih =>
    have h0 : p a = false := by simpa using h 0 (by simp)
    have hz : countTrue (asx.map p) = 0 :=
      ih (fun j hj => by simpa using h (j + 1) (by simpa using hj))
    simp [List.map, countTrue_cons, h0, hz]

theorem countTrue_map_unique (l : List α) (p : α → Bool) (d : α) (i : Nat) (hi : i < l.length)
    (hp : p (l.getD i d) = true) (ho : ∀ j, j < l.length → j ≠ i → p (l.getD j d) = false) :
    countTrue (l.map p) = 1 := by
  induction l generalizing i with
  | nil => simp at hi
  | cons a asx ih =>
    cases i with
    | zero =>
      have h0 : p a = true := by simpa using hp
      have hz : countTrue (asx.map p) = 0 :=
        countTrue_map_zero asx p d
          (fun j hj => by simpa using ho (j + 1) (by simpa using hj) (by omega))
      simp [List.map, countTrue_cons, h0, hz]
    | succ nn =>
      have h0 : p a = false := by simpa using ho 0 (by simp) (by omega)
      have h1 : countTrue (asx.map p) = 1 :=
        ih nn (by simpa using hi) (by simpa using hp)
          (fun j hj hne => by simpa using ho (j + 1) (by simpa using hj) (by omega))
      simp [List.map, countTrue_cons, h0, h1]

theorem andMask_map (f g : α → Bool) (l : List α) :
    andMask (l.map f) (l.map g) = l.map (fun x => f x && g x) := by
  induction l <;> simp [andMask, *]

/-! ### Cell-level behaviour of the update loop -/

theorem mem_zipWith_exists (f : α → β → γ) (asx : List α) (bs : List β) (c : γ)
    (hc : c ∈ List.zipWith f asx bs) : ∃ a b, a ∈ asx ∧ b ∈ bs ∧ c = f a b := by
  induction asx generalizing bs with
  | nil => simp at hc
  | cons a asx ih =>
    cases bs with
    | nil => simp at hc
    | cons b bs =>
      simp only [List.zipWith, List.mem_cons] at hc
      rcases hc with h | h
      · exact ⟨a, b, by simp, by simp, h⟩
      · obtain ⟨a', b', ha, hb, he⟩ := ih bs h
        exact ⟨a', b', by simp [ha], by simp [hb], he⟩

theorem setRowField_length (H : List String) (row : List Cell) (h : String) (v : Cell) :
    (setRowField H row h v).length = min H.length row.length := by
  simp [setRowField, List.length_zip]

theorem setRowField_getD (H : List String) (row : List Cell) (h : String) (v : Cell) (j : Nat)
    (hj : j < H.length) (hr : j < row.length) :
    (setRowField H row h v).getD j none =
      if H.getD j "" = h then v else row.getD j none := by
  unfold setRowField
  have hz : j < (H.zip row).length := by
    simp only [List.length_zip]
    omega
  rw [getD_map_lt _ _ j none ("", none) hz]
  have hzz : H.zip row = List.zipWith Prod.mk H row := rfl
  rw [hzz, getD_zipWith_lt Prod.mk H row j ("", none) "" none hj hr]
  simp [beq_iff_eq]

theorem setColumn_headers (t0 : Table) (mask : List Bool) (h : String) (v : Cell) :
    (setColumn t0 mask h v).headers = t0.headers := rfl

theorem setColumn_rows_length (t0 : Table) (mask : List Bool) (h : String) (v : Cell)
    (hm : mask.length = t0.rows.length) :
    (setColumn t0 mask h v).rows.length = t0.rows.length := by
  simp [setColumn, List.length_zipWith, hm]

theorem setColumn_row_mem_length (t0 : Table) (mask : List Bool) (h : String) (v : Cell)
    (hrows : ∀ row ∈ t0.rows, row.length = t0.headers.length) :
    ∀ row ∈ (setColumn t0 mask h v).rows, row.length = t0.headers.length := by
  intro r' hr'
  obtain ⟨b, row, _, hrow, he⟩ := mem_zipWith_exists _ _ _ _ hr'
  subst he
  cases b
  · simpa using hrows row hrow
  · simp [setRowField_length, hrows row hrow]

theorem setColumn_getD (t0 : Table) (mask : List Bool) (h : String) (v : Cell) (i j : Nat)
    (hm : mask.length = t0.rows.length)
    (hrows : ∀ row ∈ t0.rows, row.length = t0.headers.length)
    (hi : i < t0.rows.length) (hj : j < t0.headers.length) :
    (((setColumn t0 mask h v).rows.getD i []).getD j none) =
      if mask.getD i false = true ∧ t0.headers.getD j "" = h then v
      else ((t0.rows.getD i []).getD j none) := by
  unfold setColumn
  rw [getD_zipWith_lt _ mask t0.rows i [] false [] (by omega) hi]
  by_cases hb : mask.getD i false = true
  · have hrl : (t0.rows.getD i []).length = t0.headers.length :=
      hrows _ (getD_mem_of_lt _ i [] hi)
    simp only [hb, if_true]
    rw [setRowField_getD t0.headers (t0.rows.getD i []) h v j hj (by omega)]
    simp
  · have hb' : mask.getD i false = false := by
      revert hb
      cases mask.getD i false <;> simp
    simp only [hb', Bool.false_eq_true, if_false]
    simp [hb']

theorem updateStep_eq_none (cand : Candidate) (mask : List Bool) (acc : Table) (e : String)
    (hc : cget cand e = none) : updateStep cand mask acc e = acc := by
  unfold updateStep
  rw [hc]

theorem updateStep_eq_some (cand : Candidate) (mask : List Bool) (acc : Table) (e v : String)
    (hc : cget cand e = some v) :
    updateStep cand mask acc e = if v ≠ "" then setColumn acc mask e (some v) else acc := by
  unfold updateStep
  rw [hc]

theorem updateStep_headers (cand : Candidate) (mask : List Bool) (acc : Table) (e : String) :
    (updateStep cand mask acc e).headers = acc.headers := by
  cases hc : cget cand e with
  | none => rw [updateStep_eq_none cand mask acc e hc]
  | some v =>
    rw [updateStep_eq_some cand mask acc e v hc]
    by_cases hv : v ≠ ""
    · rw [if_pos hv]
      rfl
    · rw [if_neg hv]

theorem updateStep_rows_length (cand : Candidate) (mask : List Bool) (acc : Table) (e : String)
    (hm : mask.length = acc.rows.length) :
    (updateStep cand mask acc e).rows.length = acc.rows.length := by
  cases hc : cget cand e with
  | none => rw [updateStep_eq_none cand mask acc e hc]
  | some v =>
    rw [updateStep_eq_some cand mask acc e v hc]
    by_cases hv : v ≠ ""
    · rw [if_pos hv]
      exact setColumn_rows_length acc mask e (some v) hm
    · rw [if_neg hv]

theorem updateStep_row_mem_length (cand : Candidate) (mask : List Bool) (acc : Table) (e : String)
    (hrows : ∀ row ∈ acc.rows, row.length = acc.headers.length) :
    ∀ row ∈ (updateStep cand mask acc e).rows, row.length = acc.headers.length := by
  cases hc : cget cand e with
  | none =>
    rw [updateStep_eq_none cand mask acc e hc]
    exact hrows
  | some v =>
    rw [updateStep_eq_some cand mask acc e v hc]
    by_cases hv : v ≠ ""
    · rw [if_pos hv]
      exact setColumn_row_mem_length acc mask e (some v) hrows
    · rw [if_neg hv]
      exact hrows

theorem updateStep_getD (cand : Candidate) (mask : List Bool) (acc : Table) (e : String)
    (i j : Nat) (hm : mask.length = acc.rows.length)
    (hrows : ∀ row ∈ acc.rows, row.length = acc.headers.length)
    (hi : i < acc.rows.length) (hj : j < acc.headers.length) :
    (((updateStep cand mask acc e).rows.getD i []).getD j none) =
      if mask.getD i false = true ∧ acc.headers.getD j "" = e
          ∧ suppliesNonEmpty cand e = true then
        some ((cget cand e).getD "")
      else ((acc.rows.getD i []).getD j none) := by
  cases hc : cget cand e with
  | none =>
    rw [updateStep_eq_none cand mask acc e hc]
    simp [suppliesNonEmpty, hc]
  | some v =>
    rw [updateStep_eq_some cand mask acc e v hc]
    by_cases hv : v ≠ ""
    · rw [if_pos hv]
      rw [setColumn_getD acc mask e (some v) i j hm hrows hi hj]
      have hsup : suppliesNonEmpty cand e = true := by
        simp [suppliesNonEmpty, hc]
        exact hv
      simp [hc, hsup]
    · have hv' : v = "" := by simpa using hv
      subst hv'
      rw [if_neg hv]
      have hsup : suppliesNonEmpty cand e = false := by simp [suppliesNonEmpty, hc]
      simp [hsup]

theorem if_chain_mem (A : Prop) [Decidable A] (Hj e : String) (hs : List String)
    (sup : String → Bool) (V : String → Cell) (old : Cell) :
    (if A ∧ Hj ∈ hs ∧ sup Hj = true then V Hj
     else if A ∧ Hj = e ∧ sup e = true then V e
     else old) =
    (if A ∧ Hj ∈ e :: hs ∧ sup Hj = true then V Hj else old) := by
  by_cases he : Hj = e
  · subst he
    by_cases hA : A <;> by_cases hsup : sup Hj = true <;> by_cases hmem : Hj ∈ hs <;>
      simp [hA, hsup, hmem]
  · by_cases hA : A <;> by_cases hsup : sup Hj = true <;> by_cases hmem : Hj ∈ hs <;>
      simp [hA, hsup, hmem, he]

theorem updateFold_props (cand : Candidate) (mask : List Bool) (hs : List String) :
    ∀ (t0 : Table), mask.length = t0.rows.length →
      (∀ row ∈ t0.rows, row.length = t0.headers.length) →
      (hs.foldl (updateStep cand mask) t0).headers = t0.headers
      ∧ (hs.foldl (updateStep cand mask) t0).rows.length = t0.rows.length
      ∧ (∀ row ∈ (hs.foldl (updateStep cand mask) t0).rows, row.length = t0.headers.length)
      ∧ (∀ i j, i < t0.rows.length → j < t0.headers.length →
          (((hs.foldl (updateStep cand mask) t0).rows.getD i []).getD j none) =
            if mask.getD i false = true ∧ t0.headers.getD j "" ∈ hs
                ∧ suppliesNonEmpty cand (t0.headers.getD j "") = true then
              some ((cget cand (t0.headers.getD j "")).getD "")
            else ((t0.rows.getD i []).getD j none)) := by
  induction hs with
  | nil =>
    intro t0 hm hr
    exact ⟨rfl, rfl, hr, by intro i j hi hj; simp⟩
  | cons e hs ih =>
    intro t0 hm hr
    have hh : (updateStep cand mask t0 e).headers = t0.headers :=
      updateStep_headers cand mask t0 e
    have hl : (updateStep cand mask t0 e).rows.length = t0.rows.length :=
      updateStep_rows_length cand mask t0 e hm
    have hrr : ∀ row ∈ (updateStep cand mask t0 e).rows, row.length = t0.headers.length :=
      updateStep_row_mem_length cand mask t0 e hr
    obtain ⟨ih1, ih2, ih3, ih4⟩ :=
      ih (updateStep cand mask t0 e) (by rw [hl]; exact hm) (by rw [hh]; exact hrr)
    refine ⟨?_, ?_, ?_, ?_⟩
    · rw [List.foldl_cons, ih1, hh]
    · rw [List.foldl_cons, ih2, hl]
    · rw [List.foldl_cons]
      intro row hrow
      exact hh ▸ ih3 row hrow
    · intro i j hi hj
      rw [List.foldl_cons]
      rw [ih4 i j (by rw [hl]; exact hi) (by rw [hh]; exact hj)]
      rw [updateStep_getD cand mask t0 e i j hm hr hi hj]
      rw [hh]
      exact if_chain_mem (mask.getD i false = true) (t0.headers.getD j "") e hs
        (suppliesNonEmpty cand) (fun h => some ((cget cand h).getD ""))
        ((t0.rows.getD i []).getD j none)

theorem countTrue_ne_one_of_anyTrue_false (m : List Bool) (h : anyTrue m = false) :
    ¬ countTrue m = 1 := by
  rw [countTrue_eq_zero_of_anyTrue_false m h]
  omega

theorem applyCandidate_eq_none (chs : List String) (t : Table) (cand : Candidate)
    (h : find_match t ((cget cand "base_id").getD "") ((cget cand "name").getD "")
      ((cget cand "race").getD "") = none) :
    applyCandidate chs t cand =
      { t with rows := t.rows ++ [chs.map (fun entry => some ((cget cand entry).getD ""))] } := by
  simp only [applyCandidate]
  rw [h]

theorem applyCandidate_eq_some (chs : List String) (t : Table) (cand : Candidate)
    (mask : List Bool)
    (h : find_match t ((cget cand "base_id").getD "") ((cget cand "name").getD "")
      ((cget cand "race").getD "") = some mask) :
    applyCandidate chs t cand = chs.foldl (updateStep cand mask) t := by
  simp only [applyCandidate]
  rw [h]

theorem getCol_map_self (H : List String) (f : String → Cell) (col : String) (hc : col ∈ H) :
    getCol H (H.map f) col = f col := by
  induction H with
  | nil => simp at hc
  | cons h hs ih =>
    by_cases he : h = col
    · subst he
      simp [getCol, findIdxO]
    · have hc2 : col ∈ hs := by
        rcases List.mem_cons.mp hc with h1 | h1
        · exact absurd h1.symm he
        · exact h1
      have hne : (h == col) = false := by simp [he]
      simp only [getCol, findIdxO, List.map, hne, Bool.false_eq_true, if_false]
      cases hfi : findIdxO (fun x => x == col) hs with
      | none =>
        have hih := ih hc2
        simp only [getCol, hfi] at hih
        exact hih
      | some i =>
        have hih := ih hc2
        simp only [getCol, hfi] at hih
        show (f h :: List.map f hs).getD (i + 1) none = f col
        rw [List.getD_cons_succ]
        exact hih

theorem zipWith_ite_false (g : List Cell → List Cell) (p : List Bool) (rs : List (List Cell))
    (hp : anyTrue p = false) (hl : p.length = rs.length) :
    List.zipWith (fun b row => if b then g row else row) p rs = rs := by
  induction p generalizing rs with
  | nil =>
    cases rs with
    | nil => rfl
    | cons row rest => simp at hl
  | cons c cs ih =>
    cases rs with
    | nil => rfl
    | cons row rest =>
      have hc : c = false ∧ anyTrue cs = false := by
        revert hp
        cases c <;> simp [anyTrue]
      simp [List.zipWith, hc.1, ih rest hc.2 (by simpa using hl)]

theorem setRowField_map_self (H : List String) (f : String → Cell) (e : String) (v : Cell)
    (hv : f e = v) : setRowField H (H.map f) e v = H.map f := by
  subst hv
  induction H with
  | nil => rfl
  | cons h hs ih =>
    unfold setRowField at *
    rw [List.map_cons, List.zip_cons_cons, List.map_cons]
    by_cases he : h = e
    · subst he
      simp only [beq_self_eq_true, if_true]
      rw [ih]
    · have hne : (h == e) = false := by simp [he]
      simp only [hne, Bool.false_eq_true, if_false]
      rw [ih]

theorem foldl_fixed (step : Table → String → Table) (l : List String) (x : Table)
    (h : ∀ e ∈ l, step x e = x) : l.foldl step x = x := by
  induction l with
  | nil => rfl
  | cons e l ih =>
    rw [List.foldl_cons, h e (by simp)]
    exact ih (fun e2 he2 => h e2 (by simp [he2]))

theorem andMask_append_singleton (a b : List Bool) (x y : Bool) (h : a.length = b.length) :
    andMask (a ++ [x]) (b ++ [y]) = andMask a b ++ [x && y] := by
  induction a generalizing b with
  | nil =>
    cases b with
    | nil => rfl
    | cons d ds => simp at h
  | cons c cs ih =>
    cases b with
    | nil => simp at h
    | cons d ds =>
      simp only [List.cons_append, andMask, List.zipWith, List.append_eq]
      rw [show List.zipWith (fun x y => x && y) (cs ++ [x]) (ds ++ [y])
            = andMask (cs ++ [x]) (ds ++ [y]) from rfl,
        ih ds (by simpa using h)]
      rfl

theorem zipWith_append_singleton (f : Bool → List Cell → List Cell) (p : List Bool)
    (rs : List (List Cell)) (x : Bool) (r : List Cell) (h : p.length = rs.length) :
    List.zipWith f (p ++ [x]) (rs ++ [r]) = List.zipWith f p rs ++ [f x r] := by
  induction p generalizing rs with
  | nil =>
    cases rs with
    | nil => rfl
    | cons row rest => simp at h
  | cons c cs ih =>
    cases rs with
    | nil => simp at h
    | cons row rest =>
      simp only [List.cons_append, List.zipWith, List.append_eq]
      rw [ih rest (by simpa using h)]

theorem name_match_append (t : Table) (r : List Cell) (nm : String) :
    name_match ⟨t.headers, t.rows ++ [r]⟩ nm
      = name_match t nm ++ [nameRowPred t.headers r nm] := by
  simp [name_match]

theorem id_match_append (t : Table) (r : List Cell) (b : String) :
    id_match ⟨t.headers, t.rows ++ [r]⟩ b
      = id_match t b ++ [idRowPred t.headers r b] := by
  simp [id_match]

theorem race_match_append (t : Table) (r : List Cell) (rc : String) :
    race_match ⟨t.headers, t.rows ++ [r]⟩ rc
      = race_match t rc ++ [raceRowPred t.headers r rc] := by
  simp [race_match]

theorem partial_mask_append (t : Table) (r : List Cell) (b : String) (n : Nat) :
    partial_mask ⟨t.headers, t.rows ++ [r]⟩ b n
      = partial_mask t b n ++ [partialRowPred t.headers r b n] := by
  simp [partial_mask]

theorem length_name_match (t : Table) (nm : String) :
    (name_match t nm).length = t.rows.length := by
  simp [name_match]

theorem length_id_match (t : Table) (b : String) :
    (id_match t b).length = t.rows.length := by
  simp [id_match]

theorem length_race_match (t : Table) (rc : String) :
    (race_match t rc).length = t.rows.length := by
  simp [race_match]

theorem length_partial_mask (t : Table) (b : String) (n : Nat) :
    (partial_mask t b n).length = t.rows.length := by
  simp [partial_mask]

/-! ### Claim theorems -/

/-- Claim C1: for every registry table and query, `find_match` evaluates
the seven tiers in the fixed order name∧id∧race, name∧id,
name∧partial-id∧race, name∧partial-id, name∧race, name alone, id alone,
and returns the row selector of the first tier whose predicate selects
exactly one row; a tier selecting zero rows or more than one row falls
through identically (its count is simply not 1), and when no tier selects
exactly one row the result is `None`. -/
theorem find_match_first_unique_tier (t : Table) (b n r : String) :
    (find_match t b n r = none ↔ ∀ i, i < 7 → countTrue (tierMask t b n r i) ≠ 1)
    ∧ (∀ m, find_match t b n r = some m ↔
        ∃ i, i < 7 ∧ tierMask t b n r i = m ∧ countTrue m = 1 ∧
          ∀ j, j < i → countTrue (tierMask t b n r j) ≠ 1)
    ∧ tierMask t b n r 0 = andMask (andMask (name_match t n) (id_match t b)) (race_match t r)
    ∧ tierMask t b n r 1 = andMask (name_match t n) (id_match t b)
    ∧ tierMask t b n r 2 = andMask (andMask (name_match t n) (partial_id_match t b)) (race_match t r)
    ∧ tierMask t b n r 3 = andMask (name_match t n) (partial_id_match t b)
    ∧ tierMask t b n r 4 = andMask (name_match t n) (race_match t r)
    ∧ tierMask t b n r 5 = name_match t n
    ∧ tierMask t b n r 6 = id_match t b := by
  refine ⟨?_, ?_, rfl, rfl, rfl, rfl, rfl, rfl, rfl⟩
  · unfold find_match
    rw [findSome?_guard_eq_none (fun x => countTrue x = 1) _ []]
    simp only [ordered_matchers_length, tierMask]
  · intro m
    unfold find_match
    rw [findSome?_guard_eq_some (fun x => countTrue x = 1) _ [] m]
    simp only [ordered_matchers_length, tierMask]

/-- Claim C5 (amended): querying `find_match` with an existing row's own
`(name, base_id, race)` — the three cells non-null, the row unique for the
tier-1 predicate of this query, and the row's `base_id` equal (up to
leading zeros and case) to its own last six characters — returns the
tier-1 mask, which selects exactly that row: the match happens at tier 1.
Without the last-six-characters condition the tier-1 `id_match` can fail
on the row's own id and the match then happens only at a partial-id tier. -/
theorem find_match_own_identity_tier1 (t : Table) (i : Nat) (nm bid rc : String)
    (hi : i < t.rows.length)
    (hname : getCol t.headers (t.rows.getD i []) "name" = some nm)
    (hbid : getCol t.headers (t.rows.getD i []) "base_id" = some bid)
    (hrace : getCol t.headers (t.rows.getD i []) "race" = some rc)
    (hid6 : pyLower (lstrip0 bid) = pyLower (lstrip0 (lastN bid 6)))
    (huniq : ∀ j, j < t.rows.length → j ≠ i →
      ((nameRowPred t.headers (t.rows.getD j []) nm
        && idRowPred t.headers (t.rows.getD j []) bid)
        && raceRowPred t.headers (t.rows.getD j []) rc) = false) :
    find_match t bid nm rc = some (tierMask t bid nm rc 0)
    ∧ countTrue (tierMask t bid nm rc 0) = 1
    ∧ (tierMask t bid nm rc 0).getD i false = true := by
  have hmask : tierMask t bid nm rc 0 =
      t.rows.map (fun row =>
        (nameRowPred t.headers row nm && idRowPred t.headers row bid)
          && raceRowPred t.headers row rc) := by
    simp only [tierMask, ordered_matchers, List.getD, List.get?, Option.getD_some,
      id_match, name_match, race_match]
    rw [andMask_map, andMask_map]
  have hself : ((nameRowPred t.headers (t.rows.getD i []) nm
      && idRowPred t.headers (t.rows.getD i []) bid)
      && raceRowPred t.headers (t.rows.getD i []) rc) = true := by
    unfold nameRowPred idRowPred raceRowPred
    rw [hname, hbid, hrace]
    simp [cellStr, remove_leading_zeros, full_id_search, full_id_len, hid6]
  have hcount : countTrue (tierMask t bid nm rc 0) = 1 := by
    rw [hmask]
    exact countTrue_map_unique t.rows _ [] i hi hself huniq
  have hsel : (tierMask t bid nm rc 0).getD i false = true := by
    rw [hmask, getD_map_lt _ t.rows i false [] hi]
    exact hself
  refine ⟨?_, hcount, hsel⟩
  unfold find_match
  rw [findSome?_guard_eq_some (fun x => countTrue x = 1) _ []]
  exact ⟨0, by simp [ordered_matchers_length], rfl, hcount,
    fun j hj => absurd hj (Nat.not_lt_zero j)⟩

theorem find_match_own_identity_tier1_check :
    find_match tableC5 "000A2F3C" "Lydia" "NordRace" =
        some (tierMask tableC5 "000A2F3C" "Lydia" "NordRace" 0)
    ∧ countTrue (tierMask tableC5 "000A2F3C" "Lydia" "NordRace" 0) = 1
    ∧ (tierMask tableC5 "000A2F3C" "Lydia" "NordRace" 0).getD 0 false = true :=
  find_match_own_identity_tier1 tableC5 0 "Lydia" "000A2F3C" "NordRace"
    (by decide) (by decide) (by decide) (by decide) (by decide)
    (fun j hj hne => by simp [tableC5] at hj; omega)

theorem find_match_own_identity_tier1_cex :
    find_match tableC5x "FF00012A" "Aela" "Nord" = some [true]
    ∧ countTrue (tierMask tableC5x "FF00012A" "Aela" "Nord" 0) = 0
    ∧ tierMask tableC5x "FF00012A" "Aela" "Nord" 2 = [true] := by
  refine ⟨by decide, by decide, by decide⟩

/-- Claim C2: for every candidate override record, when the matcher finds
no unique row a new row is appended whose value at each schema column is
the candidate's value where present and the empty string otherwise, in the
schema's column order; when the matcher finds a unique row, each schema
column of the selected row is overwritten with the candidate's value
exactly when the candidate supplies a non-empty, non-null value for that
column, every other cell of the table being left untouched (a field-level
upsert, not a row replacement). -/
theorem apply_candidate_field_upsert (t : Table) (cand : Candidate) (chs : List String)
    (hch : chs = t.headers)
    (hrows : ∀ row ∈ t.rows, row.length = t.headers.length) :
    (find_match t ((cget cand "base_id").getD "") ((cget cand "name").getD "")
        ((cget cand "race").getD "") = none →
      applyCandidate chs t cand =
        { t with rows := t.rows ++ [chs.map (fun entry => some ((cget cand entry).getD ""))] })
    ∧ (∀ mask, find_match t ((cget cand "base_id").getD "") ((cget cand "name").getD "")
        ((cget cand "race").getD "") = some mask →
        (applyCandidate chs t cand).headers = t.headers
        ∧ (applyCandidate chs t cand).rows.length = t.rows.length
        ∧ ∀ i j, i < t.rows.length → j < t.headers.length →
            (((applyCandidate chs t cand).rows.getD i []).getD j none) =
              if mask.getD i false = true
                  ∧ suppliesNonEmpty cand (t.headers.getD j "") = true then
                some ((cget cand (t.headers.getD j "")).getD "")
              else ((t.rows.getD i []).getD j none)) := by
  constructor
  · intro h
    exact applyCandidate_eq_none chs t cand h
  · intro mask h
    have hml : mask.length = t.rows.length := find_match_mask_length t _ _ _ mask h
    rw [applyCandidate_eq_some chs t cand mask h]
    obtain ⟨f1, f2, f3, f4⟩ := updateFold_props cand mask chs t hml hrows
    refine ⟨f1, f2, ?_⟩
    intro i j hi hj
    rw [f4 i j hi hj]
    have hmem : t.headers.getD j "" ∈ chs := by
      rw [hch]
      exact getD_mem_of_lt _ j "" hj
    by_cases hcond : mask.getD i false = true
        ∧ suppliesNonEmpty cand (t.headers.getD j "") = true
    · rw [if_pos ⟨hcond.1, hmem, hcond.2⟩, if_pos hcond]
    · have hcond2 : ¬ (mask.getD i false = true ∧ t.headers.getD j "" ∈ chs
          ∧ suppliesNonEmpty cand (t.headers.getD j "") = true) := by
        intro hcon
        exact hcond ⟨hcon.1, hcon.2.2⟩
      rw [if_neg hcond2, if_neg hcond]

theorem apply_candidate_field_upsert_check :
    ((["base_id", "name", "race", "voice_model"] : List String) = tableEmptyVoice.headers)
    ∧ (∀ row ∈ tableEmptyVoice.rows, row.length = tableEmptyVoice.headers.length)
    ∧ (∀ mask, find_match tableEmptyVoice ((cget candUpdate "base_id").getD "")
        ((cget candUpdate "name").getD "") ((cget candUpdate "race").getD "") = some mask →
        (applyCandidate ["base_id", "name", "race", "voice_model"] tableEmptyVoice candUpdate).headers
            = tableEmptyVoice.headers
        ∧ (applyCandidate ["base_id", "name", "race", "voice_model"] tableEmptyVoice candUpdate).rows.length
            = tableEmptyVoice.rows.length
        ∧ ∀ i j, i < tableEmptyVoice.rows.length → j < tableEmptyVoice.headers.length →
            (((applyCandidate ["base_id", "name", "race", "voice_model"] tableEmptyVoice candUpdate).rows.getD i []).getD j none) =
              if mask.getD i false = true
                  ∧ suppliesNonEmpty candUpdate (tableEmptyVoice.headers.getD j "") = true then
                some ((cget candUpdate (tableEmptyVoice.headers.getD j "")).getD "")
              else ((tableEmptyVoice.rows.getD i []).getD j none)) :=
  ⟨by decide, by decide,
    (apply_candidate_field_upsert tableEmptyVoice candUpdate
      ["base_id", "name", "race", "voice_model"] (by decide) (by decide)).2⟩

/-- Claim C6 (amended): override application is idempotent on a fresh
candidate: when no row of the starting table matches the candidate's name
and none matches its full id, the first pass inserts a row, the second
pass's matcher selects exactly that inserted row, and the update rewrites
the same values, so applying the single-candidate document twice yields the
table of a single application.  Unconditional idempotence (over every
starting table) fails: when the candidate stays ambiguous even after the
insert — e.g. over duplicated rows — the insert path re-triggers (see the
counterexample). -/
theorem apply_candidate_idempotent_fresh (t : Table) (cand : Candidate) (chs : List String)
    (hch : chs = t.headers)
    (hname : "name" ∈ t.headers)
    (hn : anyTrue (name_match t ((cget cand "name").getD "")) = false)
    (hid : anyTrue (id_match t ((cget cand "base_id").getD "")) = false) :
    applyCandidate chs (applyCandidate chs t cand) cand = applyCandidate chs t cand := by
  subst hch
  have hnone : find_match t ((cget cand "base_id").getD "") ((cget cand "name").getD "")
      ((cget cand "race").getD "") = none := by
    rw [find_match, findSome?_guard_eq_none (fun x => countTrue x = 1) _ []]
    intro i hi
    rw [ordered_matchers_length] at hi
    interval_cases i
    · exact countTrue_ne_one_of_anyTrue_false _
        (anyTrue_andMask_left _ (anyTrue_andMask_left _ hn _) _)
    · exact countTrue_ne_one_of_anyTrue_false _ (anyTrue_andMask_left _ hn _)
    · exact countTrue_ne_one_of_anyTrue_false _
        (anyTrue_andMask_left _ (anyTrue_andMask_left _ hn _) _)
    · exact countTrue_ne_one_of_anyTrue_false _ (anyTrue_andMask_left _ hn _)
    · exact countTrue_ne_one_of_anyTrue_false _ (anyTrue_andMask_left _ hn _)
    · exact countTrue_ne_one_of_anyTrue_false _ hn
    · exact countTrue_ne_one_of_anyTrue_false _ hid
  rw [applyCandidate_eq_none t.headers t cand hnone]
  have hrn : nameRowPred t.headers
      (t.headers.map (fun entry => some ((cget cand entry).getD "")))
      ((cget cand "name").getD "") = true := by
    unfold nameRowPred
    rw [getCol_map_self t.headers _ "name" hname]
    simp [cellStr]
  have hnm1 : name_match ⟨t.headers, t.rows ++
        [t.headers.map (fun entry => some ((cget cand entry).getD ""))]⟩
        ((cget cand "name").getD "")
      = name_match t ((cget cand "name").getD "") ++ [true] := by
    rw [name_match_append, hrn]
  have hidm1 : id_match ⟨t.headers, t.rows ++
        [t.headers.map (fun entry => some ((cget cand entry).getD ""))]⟩
        ((cget cand "base_id").getD "")
      = id_match t ((cget cand "base_id").getD "")
        ++ [idRowPred t.headers
          (t.headers.map (fun entry => some ((cget cand entry).getD "")))
          ((cget cand "base_id").getD "")] :=
    id_match_append t _ _
  have hrm1 : race_match ⟨t.headers, t.rows ++
        [t.headers.map (fun entry => some ((cget cand entry).getD ""))]⟩
        ((cget cand "race").getD "")
      = race_match t ((cget cand "race").getD "")
        ++ [raceRowPred t.headers
          (t.headers.map (fun entry => some ((cget cand entry).getD "")))
          ((cget cand "race").getD "")] :=
    race_match_append t _ _
  have hpm1 : ∃ p bb, partial_id_match ⟨t.headers, t.rows ++
        [t.headers.map (fun entry => some ((cget cand entry).getD ""))]⟩
        ((cget cand "base_id").getD "") = p ++ [bb] ∧ p.length = t.rows.length := by
    rw [partial_id_match_eq]
    split_ifs
    · exact ⟨_, _, partial_mask_append t _ _ 5, length_partial_mask t _ 5⟩
    · exact ⟨_, _, partial_mask_append t _ _ 4, length_partial_mask t _ 4⟩
    · exact ⟨_, _, partial_mask_append t _ _ 3, length_partial_mask t _ 3⟩
  have hforms : ∀ mm ∈ ordered_matchers ⟨t.headers, t.rows ++
        [t.headers.map (fun entry => some ((cget cand entry).getD ""))]⟩
        ((cget cand "base_id").getD "") ((cget cand "name").getD "")
        ((cget cand "race").getD ""),
      ∃ p bb, mm = p ++ [bb] ∧ anyTrue p = false ∧ p.length = t.rows.length := by
    obtain ⟨pp, pb, hppe, hppl⟩ := hpm1
    intro mm hmm
    simp only [ordered_matchers, List.mem_cons, List.not_mem_nil, or_false] at hmm
    rcases hmm with h | h | h | h | h | h | h <;> subst h
    · rw [hnm1, hidm1,
        andMask_append_singleton _ _ _ _ (by rw [length_name_match, length_id_match]),
        hrm1, andMask_append_singleton _ _ _ _
          (by simp [andMask, List.length_zipWith, length_name_match, length_id_match,
            length_race_match])]
      exact ⟨_, _, rfl, anyTrue_andMask_left _ (anyTrue_andMask_left _ hn _) _,
        by simp [andMask, List.length_zipWith, length_name_match, length_id_match,
          length_race_match]⟩
    · rw [hnm1, hidm1,
        andMask_append_singleton _ _ _ _ (by rw [length_name_match, length_id_match])]
      exact ⟨_, _, rfl, anyTrue_andMask_left _ hn _,
        by simp [andMask, List.length_zipWith, length_name_match, length_id_match]⟩
    · rw [hnm1, hppe,
        andMask_append_singleton _ _ _ _ (by rw [length_name_match, hppl]),
        hrm1, andMask_append_singleton _ _ _ _
          (by simp [andMask, List.length_zipWith, length_name_match, length_race_match, hppl])]
      exact ⟨_, _, rfl, anyTrue_andMask_left _ (anyTrue_andMask_left _ hn _) _,
        by simp [andMask, List.length_zipWith, length_name_match, length_race_match, hppl]⟩
    · rw [hnm1, hppe,
        andMask_append_singleton _ _ _ _ (by rw [length_name_match, hppl])]
      exact ⟨_, _, rfl, anyTrue_andMask_left _ hn _,
        by simp [andMask, List.length_zipWith, length_name_match, hppl]⟩
    · rw [hnm1, hrm1,
        andMask_append_singleton _ _ _ _ (by rw [length_name_match, length_race_match])]
      exact ⟨_, _, rfl, anyTrue_andMask_left _ hn _,
        by simp [andMask, List.length_zipWith, length_name_match, length_race_match]⟩
    · rw [hnm1]
      exact ⟨_, _, rfl, hn, length_name_match t _⟩
    · rw [hidm1]
      exact ⟨_, _, rfl, hid, length_id_match t _⟩
  cases hm : find_match ⟨t.headers, t.rows ++
      [t.headers.map (fun entry => some ((cget cand entry).getD ""))]⟩
      ((cget cand "base_id").getD "") ((cget cand "name").getD "")
      ((cget cand "race").getD "") with
  | none =>
    exfalso
    rw [find_match, findSome?_guard_eq_none (fun x => countTrue x = 1) _ []] at hm
    have h5 := hm 5 (by rw [ordered_matchers_length]; omega)
    apply h5
    have h5eq : (ordered_matchers ⟨t.headers, t.rows ++
          [t.headers.map (fun entry => some ((cget cand entry).getD ""))]⟩
          ((cget cand "base_id").getD "") ((cget cand "name").getD "")
          ((cget cand "race").getD "")).getD 5 []
        = name_match ⟨t.headers, t.rows ++
          [t.headers.map (fun entry => some ((cget cand entry).getD ""))]⟩
          ((cget cand "name").getD "") := rfl
    rw [h5eq, hnm1, countTrue_append_singleton,
      countTrue_eq_zero_of_anyTrue_false _ hn]
    simp
  | some m =>
    have hm2 := hm
    rw [find_match, findSome?_guard_eq_some (fun x => countTrue x = 1) _ []] at hm2
    obtain ⟨i, hi, hval, hcnt, -⟩ := hm2
    have hmm : m ∈ ordered_matchers ⟨t.headers, t.rows ++
        [t.headers.map (fun entry => some ((cget cand entry).getD ""))]⟩
        ((cget cand "base_id").getD "") ((cget cand "name").getD "")
        ((cget cand "race").getD "") :=
      hval ▸ getD_mem_of_lt _ i [] hi
    obtain ⟨p, bb, hpeq, hpf, hpl⟩ := hforms m hmm
    subst hpeq
    have hbb : bb = true := by
      rw [countTrue_append_singleton, countTrue_eq_zero_of_anyTrue_false p hpf] at hcnt
      cases bb
      · simp at hcnt
      · rfl
    subst hbb
    rw [applyCandidate_eq_some _ _ cand _ hm]
    apply foldl_fixed
    intro e he
    cases hc : cget cand e with
    | none => exact updateStep_eq_none cand _ _ e hc
    | some v =>
      rw [updateStep_eq_some cand _ _ e v hc]
      by_cases hv : v ≠ ""
      · rw [if_pos hv]
        unfold setColumn
        rw [zipWith_append_singleton _ p t.rows true _ hpl]
        rw [zipWith_ite_false _ p t.rows hpf hpl]
        show (⟨t.headers, t.rows ++
            [setRowField t.headers
              (t.headers.map (fun entry => some ((cget cand entry).getD ""))) e (some v)]⟩ : Table)
          = ⟨t.headers, t.rows ++
            [t.headers.map (fun entry => some ((cget cand entry).getD ""))]⟩
        rw [setRowField_map_self t.headers _ e (some v) (by simp [hc])]
      · rw [if_neg hv]

theorem apply_candidate_idempotent_fresh_check :
    ((["base_id", "name", "race", "voice_model"] : List String) = tableNoMatch.headers)
    ∧ "name" ∈ tableNoMatch.headers
    ∧ anyTrue (name_match tableNoMatch ((cget candDup "name").getD "")) = false
    ∧ anyTrue (id_match tableNoMatch ((cget candDup "base_id").getD "")) = false
    ∧ applyCandidate ["base_id", "name", "race", "voice_model"]
        (applyCandidate ["base_id", "name", "race", "voice_model"] tableNoMatch candDup) candDup
      = applyCandidate ["base_id", "name", "race", "voice_model"] tableNoMatch candDup :=
  ⟨by decide, by decide, by decide, by decide,
    apply_candidate_idempotent_fresh tableNoMatch candDup
      ["base_id", "name", "race", "voice_model"] (by decide) (by decide) (by decide) (by decide)⟩

/-- Counterexample to claim C6 as stated: over a table with two identical
rows the candidate matches no tier uniquely even after its row has been
inserted, so the second pass inserts again and two passes differ from
one. -/
theorem apply_candidate_idempotent_cex :
    applyCandidate ["base_id", "name", "race"]
        (applyCandidate ["base_id", "name", "race"] tableDup candDup) candDup
      ≠ applyCandidate ["base_id", "name", "race"] tableDup candDup := by
  decide

/-- Claim C3: the resolver never fails on an unmatched identity: when the
matcher returns `None`, `find_character_info` returns exactly the
generic-NPC collaborator's record — the collaborator invoked with the
parsed race token, not the raw bracketed descriptor — together with
`is_generic = true`; no error outcome is produced for a missing registry
match. -/
theorem find_character_info_unmatched_generic (c : Collaborators) (t : Table)
    (base_id character_name race cr : String) (gender : Int) (ivm : String)
    (hparse : parseRaceToken race = some cr)
    (hnone : find_match t base_id character_name cr = none) :
    find_character_info c t base_id character_name race gender ivm =
      some (c.load_unnamed_npc character_name cr gender ivm, true, t) := by
  simp [find_character_info, hparse, hnone]

theorem find_character_info_unmatched_generic_check :
    parseRaceToken "<NordRace (00012345) Race >" = some "Nord"
    ∧ find_match tableNoMatch "9F30" "Bob" "Nord" = none
    ∧ find_character_info collabDemo tableNoMatch "9F30" "Bob"
        "<NordRace (00012345) Race >" 0 "MaleNord" =
        some (collabDemo.load_unnamed_npc "Bob" "Nord" 0 "MaleNord", true, tableNoMatch) :=
  ⟨by decide, by decide,
    find_character_info_unmatched_generic collabDemo tableNoMatch "9F30" "Bob"
      "<NordRace (00012345) Race >" "Nord" 0 "MaleNord" (by decide) (by decide)⟩

/-- Claim C7: on a unique registry match the returned record is the matched
row's field mapping with `is_generic = false`; its `voice_model` is
replaced by the best-voice-model collaborator's value exactly when the
stored one is null or empty, and otherwise the record is returned exactly
as stored, without reference to the collaborator. -/
theorem find_character_info_matched_backfill (c : Collaborators) (t : Table)
    (base_id character_name race cr : String) (gender : Int) (ivm : String) (mask : List Bool)
    (hparse : parseRaceToken race = some cr)
    (hsome : find_match t base_id character_name cr = some mask) :
    (voiceEmpty (getField (t.headers.zip ((selectRows t.rows mask).headD [])) "voice_model") = true →
      find_character_info c t base_id character_name race gender ivm =
        some (setField (t.headers.zip ((selectRows t.rows mask).headD [])) "voice_model"
          (some (c.find_best_voice_model race gender ivm)), false, t))
    ∧ (voiceEmpty (getField (t.headers.zip ((selectRows t.rows mask).headD [])) "voice_model") = false →
      find_character_info c t base_id character_name race gender ivm =
        some (t.headers.zip ((selectRows t.rows mask).headD []), false, t)) := by
  constructor <;> intro hv
  · simp only [find_character_info, hparse, hsome]
    rw [hv]
    simp
  · simp only [find_character_info, hparse, hsome]
    rw [hv]
    simp

theorem find_character_info_matched_backfill_check :
    parseRaceToken "<NordRace (00012345) Race >" = some "Nord"
    ∧ find_match tableEmptyVoice "000A2F3C" "Lydia" "Nord" = some [true]
    ∧ (voiceEmpty (getField (tableEmptyVoice.headers.zip
        ((selectRows tableEmptyVoice.rows [true]).headD [])) "voice_model") = true →
      find_character_info collabDemo tableEmptyVoice "000A2F3C" "Lydia"
          "<NordRace (00012345) Race >" 0 "FemaleNord" =
        some (setField (tableEmptyVoice.headers.zip
            ((selectRows tableEmptyVoice.rows [true]).headD [])) "voice_model"
          (some (collabDemo.find_best_voice_model "<NordRace (00012345) Race >" 0 "FemaleNord")),
          false, tableEmptyVoice)) :=
  ⟨by decide, by decide,
    (find_character_info_matched_backfill collabDemo tableEmptyVoice "000A2F3C" "Lydia"
      "<NordRace (00012345) Race >" "Nord" 0 "FemaleNord" [true]
      (by decide) (by decide)).1⟩

/-- Claim C8: resolution is read-only with respect to the registry table:
`find_match` is a pure query (a function of the table) and
`find_character_info` hands the table it was given back unchanged — the
voice-model backfill exists only in the returned record — so resolving the
same identity again from the returned table reproduces the same result. -/
theorem find_character_info_read_only (c : Collaborators) (t : Table)
    (base_id character_name race : String) (gender : Int) (ivm : String)
    (rec : Record) (g : Bool) (t' : Table)
    (h : find_character_info c t base_id character_name race gender ivm = some (rec, g, t')) :
    t' = t
    ∧ find_character_info c t' base_id character_name race gender ivm =
        find_character_info c t base_id character_name race gender ivm := by
  have ht : t' = t := by
    cases hp : parseRaceToken race with
    | none => simp [find_character_info, hp] at h
    | some cr =>
      cases hm : find_match t base_id character_name cr with
      | none =>
        simp [find_character_info, hp, hm] at h
        exact h.2.2.symm
      | some mask =>
        simp [find_character_info, hp, hm] at h
        exact h.2.2.symm
  exact ⟨ht, by rw [ht]⟩

theorem find_character_info_read_only_check :
    find_character_info collabDemo tableEmptyVoice "000A2F3C" "Lydia"
        "<NordRace (00012345) Race >" 0 "FemaleNord" =
      some (setField (tableEmptyVoice.headers.zip
          ((selectRows tableEmptyVoice.rows [true]).headD [])) "voice_model"
        (some "BestVoice"), false, tableEmptyVoice)
    ∧ tableEmptyVoice = tableEmptyVoice
    ∧ find_character_info collabDemo tableEmptyVoice "000A2F3C" "Lydia"
          "<NordRace (00012345) Race >" 0 "FemaleNord" =
        find_character_info collabDemo tableEmptyVoice "000A2F3C" "Lydia"
          "<NordRace (00012345) Race >" 0 "FemaleNord" :=
  ⟨by decide,
    find_character_info_read_only collabDemo tableEmptyVoice "000A2F3C" "Lydia"
      "<NordRace (00012345) Race >" 0 "FemaleNord"
      (setField (tableEmptyVoice.headers.zip
          ((selectRows tableEmptyVoice.rows [true]).headD [])) "voice_model"
        (some "BestVoice")) false tableEmptyVoice (by decide)⟩

/-- Claim C10: the parsed race token is what reaches the matcher and the
generic-NPC collaborator, while the voice-model backfill invokes the
best-voice-model collaborator with the raw race descriptor exactly as
received. -/
theorem find_character_info_race_routing (c : Collaborators) (t : Table)
    (base_id character_name race cr : String) (gender : Int) (ivm : String)
    (hparse : parseRaceToken race = some cr) :
    (find_match t base_id character_name cr = none →
      find_character_info c t base_id character_name race gender ivm =
        some (c.load_unnamed_npc character_name cr gender ivm, true, t))
    ∧ ∀ mask, find_match t base_id character_name cr = some mask →
        voiceEmpty (getField (t.headers.zip ((selectRows t.rows mask).headD []))
          "voice_model") = true →
        find_character_info c t base_id character_name race gender ivm =
          some (setField (t.headers.zip ((selectRows t.rows mask).headD [])) "voice_model"
            (some (c.find_best_voice_model race gender ivm)), false, t) := by
  constructor
  · intro h
    simp [find_character_info, hparse, h]
  · intro mask h hv
    simp only [find_character_info, hparse, h]
    rw [hv]
    simp

theorem find_character_info_race_routing_check :
    parseRaceToken "<NordRace (00012345) Race >" = some "Nord"
    ∧ (find_match tableEmptyVoice "000A2F3C" "Lydia" "Nord" = some [true] →
        voiceEmpty (getField (tableEmptyVoice.headers.zip
          ((selectRows tableEmptyVoice.rows [true]).headD [])) "voice_model") = true →
        find_character_info collabDemo tableEmptyVoice "000A2F3C" "Lydia"
            "<NordRace (00012345) Race >" 0 "FemaleNord" =
          some (setField (tableEmptyVoice.headers.zip
              ((selectRows tableEmptyVoice.rows [true]).headD [])) "voice_model"
            (some (collabDemo.find_best_voice_model "<NordRace (00012345) Race >" 0 "FemaleNord")),
            false, tableEmptyVoice)) :=
  ⟨by decide,
    (find_character_info_race_routing collabDemo tableEmptyVoice "000A2F3C" "Lydia"
      "<NordRace (00012345) Race >" "Nord" 0 "FemaleNord" (by decide)).2 [true]⟩

/-- Claim C9: override ingestion is per-file fault-contained and a missing
directory is normalized to "no overrides": with no directory the table is
returned unchanged, and a file that raises is skipped while every other
file of the directory is still applied, so one malformed file never aborts
the pass and no error escapes the ingestor (the ingestor's type is total). -/
theorem apply_overrides_fault_containment (chs : List String) (t : Table) :
    apply_character_overrides none chs t = t
    ∧ ∀ (pre post : List OverrideFile) (e : String),
        apply_character_overrides (some (pre ++ Except.error e :: post)) chs t =
          apply_character_overrides (some (pre ++ post)) chs t := by
  refine ⟨rfl, ?_⟩
  intro pre post e
  simp [apply_character_overrides, List.foldl_append, List.foldl_cons, applyFile]

/-- Claim C4: the partial-id predicate is fixed in two phases: the window
`n` is the first of 5, 4, 3 whose mask has some matching row (existence,
not uniqueness), and only the resulting mask for that fixed `n` is combined
with name and race in tiers 3 and 4 of the tiered matching. -/
theorem partial_id_match_two_phase (t : Table) (b n r : String) :
    (anyTrue (partial_mask t b 5) = true → partial_id_match t b = partial_mask t b 5)
    ∧ (anyTrue (partial_mask t b 5) = false → anyTrue (partial_mask t b 4) = true →
        partial_id_match t b = partial_mask t b 4)
    ∧ (anyTrue (partial_mask t b 5) = false → anyTrue (partial_mask t b 4) = false →
        partial_id_match t b = partial_mask t b 3)
    ∧ tierMask t b n r 2 = andMask (andMask (name_match t n) (partial_id_match t b)) (race_match t r)
    ∧ tierMask t b n r 3 = andMask (name_match t n) (partial_id_match t b) := by
  refine ⟨fun h5 => ?_, fun h5 h4 => ?_, fun h5 h4 => ?_, rfl, rfl⟩
  · rw [partial_id_match_eq, if_pos h5]
  · rw [partial_id_match_eq, if_neg (by simp [h5]), if_pos h4]
  · rw [partial_id_match_eq, if_neg (by simp [h5]), if_neg (by simp [h4])]

end Mantella
